import Mathlib

/-!
Shallow embedding of the mail-serv backend (src/index.ts and src/db/db.ts).

Strings manipulated character-by-character by the source (file paths, the
`split("-")` filename derivation, `path.extname`) are modelled as `List Char`
so that every operation is structurally recursive and kernel-evaluable.
File contents are byte lists (`List Nat`).

External effects (the SendGrid delivery call and each better-sqlite3
statement executed inside the `/send` route's try block) are synchronous
calls that either return normally or throw; their outcomes are parameters
of the model (`SendEnv`), and the embedded handler reproduces the source's
try/catch control flow for every combination of outcomes.
-/

abbrev Str := List Char

abbrev Bytes := List Nat

/-- JavaScript `String.prototype.split` with a one-character separator,
on the character-list representation. `"".split(c) = [""]`. -/
def splitOnChar (c : Char) : List Char → List (List Char)
  | [] => [[]]
  | x :: xs =>
    if x = c then [] :: splitOnChar c xs
    else
      match splitOnChar c xs with
      | [] => [[x]]
      | y :: ys => (x :: y) :: ys

/-- JavaScript `Array.prototype.join` with a one-character separator. -/
def intercalateChar (c : Char) : List (List Char) → List Char
  | [] => []
  | [x] => x
  | x :: y :: ys => x ++ c :: intercalateChar c (y :: ys)

/-- Model of Node's `path.basename`: the component after the last `/`.
(Trailing-slash trimming, which never arises for the paths this server
builds, is not modelled.) -/
def basenameChars (p : Str) : Str :=
  (splitOnChar '/' p).getLastD []

/-- src/index.ts lines 166-170: display-filename derivation for an attachment,
`path.basename(filePath).split("-").slice(1).join("-")`. -/
def fileNameOf (p : Str) : Str :=
  intercalateChar '-' ((splitOnChar '-' (basenameChars p)).drop 1)

/-- Characters after the last `.` of the list, `none` when no `.` occurs. -/
def afterLastDot : List Char → Option (List Char)
  | [] => none
  | c :: cs =>
    match afterLastDot cs with
    | some suf => some suf
    | none => if c = '.' then some cs else none

/-- Model of Node's `path.extname`: the suffix of the basename from its last
`.`, empty when the basename has no `.` past its first character (so a
leading-dot file with no further dot has no extension, as in Node). -/
def extnameChars (p : Str) : Str :=
  match basenameChars p with
  | [] => []
  | _ :: rest =>
    match afterLastDot rest with
    | some suf => '.' :: suf
    | none => []

/-- src/index.ts lines 323-339: the static extension-to-MIME table of
`getMimeType`, with the keys exactly as written in the source. -/
def mimeTypesTable : List (Str × Str) :=
  [ (".jpg".data, "image/jpeg".data)
  , (".jpeg".data, "image/jpeg".data)
  , (".png".data, "image/png".data)
  , (".gif".data, "image/gif".data)
  , (".pdf".data, "application/pdf".data)
  , (".doc".data, "application/msword".data)
  , (".docx".data, "application/vnd.openxmlformats-officedocument.wordprocessingml.document".data)
  , (".xls".data, "application/vnd.ms-excel".data)
  , (".xlsx".data, "application/vnd.openxmlformats-officedocument.spreadsheetml.sheet".data)
  , (".txt".data, "text/plain".data)
  , (".zip".data, "application/zip".data)
  , (".mp3".data, "audio/mpeg".data)
  , (".mp4".data, "video/mp4".data)
  ]

/-- src/index.ts lines 321-342, `getMimeType`: lower-cased extension looked up
in the static table, with `application/octet-stream` as the fallback. -/
def getMimeType (filePath : Str) : Str :=
  let extension := (extnameChars filePath).map Char.toLower
  match List.lookup extension mimeTypesTable with
  | some m => m
  | none => "application/octet-stream".data

/-- Email status column, a closed enumeration in src/db/db.ts. -/
inductive Status
  | pending
  | sent
  | failed
deriving DecidableEq

/-- One row of the `emails` table (src/db/db.ts lines 16-24, 37-45).
`sentAt` models the `sent_at DEFAULT CURRENT_TIMESTAMP` column. -/
structure Email where
  id : Nat
  sender : Str
  recipients : List Str
  subject : Str
  body : Str
  sentAt : Nat
  status : Status
deriving DecidableEq

/-- One row of the `attachments` table (src/db/db.ts lines 26-33, 47-53). -/
structure AttachmentRow where
  id : Nat
  emailId : Nat
  filename : Str
  content : Bytes
  contentType : Str
deriving DecidableEq

/-- The SQLite database state: both tables plus the AUTOINCREMENT counters
(SQLite hands out row ids starting from 1). -/
structure DbState where
  emails : List Email
  attachments : List AttachmentRow
  nextEmailId : Nat
  nextAttachmentId : Nat
deriving DecidableEq

/-- src/db/db.ts lines 56-73, `saveEmail`: INSERT a row (status as given by
the caller, `sent_at` defaulted to the current time) and return
`lastInsertRowid`. -/
def saveEmail (sender : Str) (recipients : List Str) (subject body : Str)
    (st : Status) (now : Nat) (db : DbState) : Nat × DbState :=
  (db.nextEmailId,
   { db with
      emails := db.emails ++
        [⟨db.nextEmailId, sender, recipients, subject, body, now, st⟩]
      nextEmailId := db.nextEmailId + 1 })

/-- src/db/db.ts lines 75-78, `updateEmailStatus`:
`UPDATE emails SET status = ? WHERE id = ?`. -/
def updateEmailStatus (id : Nat) (st : Status) (db : DbState) : DbState :=
  { db with
      emails := db.emails.map fun e =>
        if e.id = id then { e with status := st } else e }

/-- src/db/db.ts lines 113-123, `saveAttachment`: INSERT a metadata row and
return `lastInsertRowid`. -/
def saveAttachment (emailId : Nat) (filename : Str) (content : Bytes)
    (contentType : Str) (db : DbState) : Nat × DbState :=
  (db.nextAttachmentId,
   { db with
      attachments := db.attachments ++
        [⟨db.nextAttachmentId, emailId, filename, content, contentType⟩]
      nextAttachmentId := db.nextAttachmentId + 1 })

/-- src/db/db.ts lines 138-141, `deleteAttachmentsByEmailId`:
`DELETE FROM attachments WHERE email_id = ?`. -/
def deleteAttachmentsByEmailId (emailId : Nat) (db : DbState) : DbState :=
  { db with
      attachments := db.attachments.filter fun a => a.emailId ≠ emailId }

/-- A JSON field that is either a single string or an array of strings
(the `recipients` and `attachmentPaths` fields of the `/send` body). -/
abbrev StrOrList := Sum Str (List Str)

/-- The request reaching the `/send` handler: body fields (absent fields are
`none`) plus the paths of the files multer already stored on disk. -/
structure SendRequest where
  sender : Option Str
  recipients : Option StrOrList
  subject : Option Str
  body : Option Str
  attachmentPaths : Option StrOrList
  files : List Str

/-- JavaScript truthiness test `!x` for an optional string field: true when
the field is absent or the empty string. -/
def falsyStr : Option Str → Bool
  | none => true
  | some s => s.isEmpty

/-- JavaScript truthiness test `!x` for a string-or-array field. An array is
always truthy in JavaScript, even when it has zero elements. -/
def falsyStrOrList : Option StrOrList → Bool
  | none => true
  | some (Sum.inl s) => s.isEmpty
  | some (Sum.inr _) => false

/-- src/index.ts lines 127-131: the `/send` validation predicate is the
negation of `!sender || !recipients || !subject || !body`. -/
def validReq (req : SendRequest) : Bool :=
  !(falsyStr req.sender || falsyStrOrList req.recipients ||
    falsyStr req.subject || falsyStr req.body)

/-- src/index.ts lines 115-124: `allFilePaths` is the multer file paths
followed by `attachmentPaths` (guarded by the truthiness check
`if (attachmentPaths)`, then spread when an array, pushed when a string). -/
def allFilePaths (req : SendRequest) : List Str :=
  req.files ++
    match req.attachmentPaths with
    | none => []
    | some (Sum.inl s) => if s.isEmpty then [] else [s]
    | some (Sum.inr l) => l

/-- One entry of `msg.attachments` handed to the delivery collaborator
(src/index.ts lines 184-189). The base64 encoding of the file content is
injective, so the content is modelled by the raw bytes. -/
structure MsgAttachment where
  content : Bytes
  filename : Str
  type : Str
deriving DecidableEq

/-- The message object handed to `sgMail.send` (src/index.ts lines 147-153,
156-157): source sends the same string as text and html body. `toAddrs`
models the `to` field. -/
structure Message where
  toAddrs : List Str
  sender : Str
  subject : Str
  text : Str
  html : Str
  attachments : List MsgAttachment
deriving DecidableEq

/-- Outcomes of the external calls made inside the `/send` try block, one
field per call site. `fs` is the uploads directory: `readFileSync` returns
the bytes or throws (`none`). The boolean fields tell whether the SendGrid
call and each better-sqlite3 statement return normally or throw; `now` is
the clock value SQLite uses for the `sent_at` default. `unlinkSync` failures
are caught and only logged by the source (lines 202-208, 225-231), so file
deletion is modelled as always effective. -/
structure SendEnv where
  fs : Str → Option Bytes
  saveEmailOk : Bool
  saveAttachmentOk : Str → Bool
  deliveryOk : Bool
  updateSentOk : Bool
  deleteAttachmentsOk : Bool
  now : Nat

/-- The HTTP outcome of the `/send` route: 400 on validation failure, 200
with the created email id, or 500 from the catch block. -/
inductive SendResult
  | validationError
  | success (emailId : Nat)
  | failure
deriving DecidableEq

/-- Everything observable about one `/send` invocation: the response, the
final database and uploads directory, the message passed to `sgMail.send`
(`none` when the call was never reached), and the ordered list of
`updateEmailStatus` calls that were executed. -/
structure SendOutcome where
  result : SendResult
  db : DbState
  fs : Str → Option Bytes
  delivered : Option Message
  statusWrites : List (Nat × Status)

/-- src/index.ts lines 159-193, one iteration of the attachment loop. The
inner try/catch swallows a throw from `readFileSync` or `saveAttachment`:
the iteration then contributes neither an `AttachmentRow` nor a message
attachment, and the loop continues. -/
def processFile (emailId : Nat) (env : SendEnv) (p : Str)
    (acc : DbState × List MsgAttachment) : DbState × List MsgAttachment :=
  match env.fs p with
  | none => acc
  | some content =>
    let fileName := fileNameOf p
    let mime := getMimeType p
    if env.saveAttachmentOk p then
      ((saveAttachment emailId fileName [] mime acc.1).2,
       acc.2 ++ [⟨content, fileName, mime⟩])
    else
      acc

/-- The whole attachment loop of src/index.ts lines 159-193. Every path is
pushed onto `uploadedFiles` before its inner try, so after the loop the
cleanup list equals `allFilePaths` independently of per-file outcomes. -/
def processFiles (emailId : Nat) (env : SendEnv) :
    List Str → DbState × List MsgAttachment → DbState × List MsgAttachment
  | [], acc => acc
  | p :: rest, acc => processFiles emailId env rest (processFile emailId env p acc)

/-- Effect on the uploads directory of the `uploadedFiles.forEach(unlinkSync)`
cleanup loops (src/index.ts lines 202-208 and 225-231). -/
def unlinkAll (paths : List Str) (fs : Str → Option Bytes) : Str → Option Bytes :=
  fun q => if q ∈ paths then none else fs q

/-- src/index.ts lines 216-237, the catch block of `/send`: mark the record
failed when `emailId` is truthy (a number is falsy exactly when it is 0),
unlink the tracked files, answer 500. It does not touch the attachments
table. -/
def sendCatch (emailId : Option Nat) (uploadedFiles : List Str) (db : DbState)
    (fs : Str → Option Bytes) (delivered : Option Message)
    (writes : List (Nat × Status)) : SendOutcome :=
  match emailId with
  | some id =>
    if id ≠ 0 then
      ⟨.failure, updateEmailStatus id .failed db, unlinkAll uploadedFiles fs,
       delivered, writes ++ [(id, .failed)]⟩
    else
      ⟨.failure, db, unlinkAll uploadedFiles fs, delivered, writes⟩
  | none => ⟨.failure, db, unlinkAll uploadedFiles fs, delivered, writes⟩

/-- src/index.ts lines 106-238, the `/send` route handler, as a function of
the request, the external-call outcomes and the initial database. Control
flow follows the source: validation returns 400 before any record exists; a
throw from `saveEmail` reaches the catch with `emailId` still undefined; a
throw from `sgMail.send`, from `updateEmailStatus(emailId, "sent")` or from
`deleteAttachmentsByEmailId` reaches the catch with `emailId` set. -/
def sendHandler (req : SendRequest) (env : SendEnv) (db : DbState) : SendOutcome :=
  let paths := allFilePaths req
  if validReq req = false then
    ⟨.validationError, db, env.fs, none, []⟩
  else
    let sender := req.sender.getD []
    let subject := req.subject.getD []
    let body := req.body.getD []
    let recipientList : List Str :=
      match req.recipients with
      | some (Sum.inr l) => l
      | some (Sum.inl s) => [s]
      | none => []
    if env.saveEmailOk = false then
      sendCatch none [] db env.fs none []
    else
      let saved := saveEmail sender recipientList subject body .pending env.now db
      let emailId := saved.1
      let processed := processFiles emailId env paths (saved.2, [])
      let msg : Message := ⟨recipientList, sender, subject, body, body, processed.2⟩
      if env.deliveryOk = false then
        sendCatch (some emailId) paths processed.1 env.fs (some msg) []
      else if env.updateSentOk = false then
        sendCatch (some emailId) paths processed.1 env.fs (some msg) []
      else
        let db3 := updateEmailStatus emailId .sent processed.1
        let fs1 := unlinkAll paths env.fs
        if env.deleteAttachmentsOk = false then
          sendCatch (some emailId) paths db3 fs1 (some msg) [(emailId, .sent)]
        else
          ⟨.success emailId, deleteAttachmentsByEmailId emailId db3, fs1,
           some msg, [(emailId, .sent)]⟩

/-- The empty database as better-sqlite3 creates it: AUTOINCREMENT counters
start at 1. -/
def emptyDb : DbState := ⟨[], [], 1, 1⟩

/-- Locations inside the uploads directory used by the chunk protocol:
`chunk fileId i` is `temp_uploads/<fileId>/chunk-<i>` (src/index.ts lines
255, 262) and `final name` is `temp_uploads/<name>` for a file placed
directly in the uploads directory, such as the assembled artifact
`<fileId>-<fileName>` (line 287). The two path shapes are distinct on disk
(chunk files live in a per-upload subdirectory), which this encoding
reflects. -/
inductive FPath
  | chunk (fileId : String) (idx : Nat)
  | final (name : String)
deriving DecidableEq

/-- The staging/uploads directory contents for the chunk protocol: a finite
listing of files, as on a real disk, so that emptiness of a per-upload chunk
directory — what `fs.rmdirSync(chunkDir)` checks — is computable. -/
structure UploadFS where
  files : List (FPath × Bytes)

/-- Content of the file at path `p`, `none` when no such file exists. -/
def UploadFS.read (fs : UploadFS) (p : FPath) : Option Bytes :=
  (fs.files.find? fun e => e.1 = p).map fun e => e.2

instance : CoeFun UploadFS fun _ => FPath → Option Bytes :=
  ⟨UploadFS.read⟩

/-- Point update of the uploads directory: `fs.writeFileSync` truncates and
rewrites, so a write replaces whatever was at the path, and writing `none`
models `fs.unlinkSync` removing the file from the listing. -/
def fsWrite (fs : UploadFS) (p : FPath) (v : Option Bytes) : UploadFS :=
  match v with
  | some b => ⟨(p, b) :: fs.files.filter fun e => e.1 ≠ p⟩
  | none => ⟨fs.files.filter fun e => e.1 ≠ p⟩

/-- Whether a path is a file inside the per-upload chunk directory of
`fileId` (`temp_uploads/<fileId>/`), the directory `fs.rmdirSync` removes at
src/index.ts line 305. -/
def inChunkDir (fileId : String) : FPath → Bool
  | .chunk fid _ => fid = fileId
  | .final _ => false

/-- The HTTP outcome of the `/upload/chunk` route. -/
inductive ChunkResult
  | badRequest
  | chunkOk (chunkIndex totalChunks : Nat)
deriving DecidableEq

/-- src/index.ts lines 241-276, the `/upload/chunk` route: `parseInt` of a
missing or non-numeric query parameter is NaN (`none` here), `!fileName` and
`!fileId` reject the empty string, then the chunk body is written with
`writeFileSync` to `chunk-<chunkIndex>` inside the per-upload directory
(directory creation has no observable effect beyond the write). -/
def uploadChunk (chunkIndex totalChunks : Option Nat) (fileName fileId : String)
    (body : Bytes) (fs : UploadFS) : ChunkResult × UploadFS :=
  match chunkIndex, totalChunks with
  | some ci, some tc =>
    if fileName = "" || fileId = "" then
      (.badRequest, fs)
    else
      (.chunkOk ci tc, fsWrite fs (.chunk fileId ci) (some body))
  | _, _ => (.badRequest, fs)

/-- A sequence of `/upload/chunk` requests for one upload session, applied in
arrival order: each element of `ops` is `(chunkIndex, body)`. -/
def applyChunkPuts (fileName fileId : String) (totalChunks : Nat)
    (ops : List (Nat × Bytes)) (fs : UploadFS) : UploadFS :=
  match ops with
  | [] => fs
  | op :: rest =>
    applyChunkPuts fileName fileId totalChunks rest
      (uploadChunk (some op.1) (some totalChunks) fileName fileId op.2 fs).2

/-- The HTTP outcome of the `/upload/complete` route. -/
inductive CompleteResult
  | badRequest
  | completeOk (filePath : FPath) (fileName mimeType : String)
  | serverError
deriving DecidableEq

/-- Append `data` to the write stream open on `p`: the stream was created
with flag `w`, so the file holds everything written so far. -/
def appendFinal (fs : UploadFS) (p : FPath) (data : Bytes) : UploadFS :=
  fsWrite fs p (some (((fs p).getD []) ++ data))

/-- src/index.ts lines 293-300, the assembly loop of `/upload/complete`: for
each index in order, `readFileSync` the chunk (a missing chunk throws, and
the handler's catch then answers 500 with the stream abandoned mid-file),
stream-write its bytes onto the final file, and delete the chunk file. The
boolean of the result tells whether the loop ran to completion. -/
def combineChunks (fileId : String) (finalPath : FPath) :
    List Nat → UploadFS → Bool × UploadFS
  | [], fs => (true, fs)
  | i :: rest, fs =>
    match fs (FPath.chunk fileId i) with
    | none => (false, fs)
    | some data =>
      combineChunks fileId finalPath rest
        (fsWrite (appendFinal fs finalPath data) (FPath.chunk fileId i) none)

/-- src/index.ts lines 278-318, the `/upload/complete` route. The truthiness
validation rejects empty strings and `totalChunks = 0`. `createWriteStream`
with the default `w` flag creates (or truncates) the final file immediately,
before any chunk is checked; the loop then appends chunk bytes in ascending
index order. After a successful loop, `fs.rmdirSync(chunkDir)` (line 305)
removes the per-upload chunk directory: it throws ENOTEMPTY when any chunk
file of this `fileId` is still present (stray chunks at indices outside
`[0, totalChunks)` are never deleted by the loop), and the handler's catch
then answers 500 even though the artifact was written. -/
def completeUpload (fileId fileName : String) (totalChunks : Nat)
    (mimeType : String) (fs : UploadFS) : CompleteResult × UploadFS :=
  if fileId = "" || fileName = "" || totalChunks = 0 || mimeType = "" then
    (.badRequest, fs)
  else
    let finalPath := FPath.final (fileId ++ "-" ++ fileName)
    let fs1 := fsWrite fs finalPath (some [])
    match combineChunks fileId finalPath (List.range totalChunks) fs1 with
    | (true, fs2) =>
      if fs2.files.any fun e => inChunkDir fileId e.1 then
        (.serverError, fs2)
      else
        (.completeOk finalPath fileName mimeType, fs2)
    | (false, fs2) => (.serverError, fs2)

/-- A well-formed send request with one multer-stored attachment file. -/
def reqOneFile : SendRequest :=
  ⟨some "a".data, some (Sum.inr ["r".data]), some "s".data, some "b".data,
   none, ["u-f.txt".data]⟩

/-- Outcomes where the attachment file is readable, every database statement
succeeds, and the SendGrid call throws. -/
def envDeliveryFail : SendEnv :=
  ⟨fun p => if p = "u-f.txt".data then some [7] else none,
   true, fun _ => true, false, true, true, 5⟩

/-- A well-formed send request with no attachments. -/
def reqNoFile : SendRequest :=
  ⟨some "a".data, some (Sum.inr ["r".data]), some "s".data, some "b".data,
   none, []⟩

/-- Outcomes where delivery and the sent-status update succeed but the
`deleteAttachmentsByEmailId` statement throws. -/
def envDeleteFail : SendEnv :=
  ⟨fun _ => none, true, fun _ => true, true, true, false, 5⟩

/-- Outcomes where every external call succeeds (no attachment file exists,
which only matters when the request lists attachment paths). -/
def envAllOk : SendEnv :=
  ⟨fun _ => none, true, fun _ => true, true, true, true, 5⟩

/-- A send request whose `recipients` field is an array with zero elements;
every other field is present and non-empty. -/
def reqEmptyRecipients : SendRequest :=
  ⟨some "a".data, some (Sum.inr []), some "s".data, some "b".data, none, []⟩

/-- A send request whose `sender` is the empty string. -/
def reqEmptySender : SendRequest :=
  ⟨some [], some (Sum.inr ["r".data]), some "s".data, some "b".data, none, []⟩

/-- A well-formed send request with two multer-stored attachment files. -/
def reqTwoFiles : SendRequest :=
  ⟨some "a".data, some (Sum.inr ["r".data]), some "s".data, some "b".data,
   none, ["u-f.txt".data, "u-g.txt".data]⟩

/-- Outcomes where the first attachment file is readable and the second one
is not (`readFileSync` throws on it); everything else succeeds. -/
def envOneUnreadable : SendEnv :=
  ⟨fun p => if p = "u-f.txt".data then some [7] else none,
   true, fun _ => true, true, true, true, 5⟩

/-- A staging area holding only chunk 0 of upload `u1` (chunk 1 of a
two-chunk upload was never received). -/
def fsChunk0Only : UploadFS := ⟨[(FPath.chunk "u1" 0, [1, 2])]⟩

/-- The empty uploads directory. -/
def fsEmpty : UploadFS := ⟨[]⟩

/-- Chunk payloads for a concrete two-chunk upload. -/
def payloadW : Nat → Bytes := fun i => if i = 0 then [10] else [20]

/-- A stored email row in `pending` state. -/
def emailRow1 : Email := ⟨1, "a".data, ["r".data], "s".data, "b".data, 5, .pending⟩

/-- The same row after a transition to `sent`. -/
def emailRow1Sent : Email := ⟨1, "a".data, ["r".data], "s".data, "b".data, 5, .sent⟩

/-- A database holding exactly `emailRow1`. -/
def dbOneEmail : DbState := ⟨[emailRow1], [], 2, 1⟩



theorem splitOnChar_ne_nil (c : Char) (l : List Char) : splitOnChar c l ≠ [] := by
  cases l with
  | nil => simp [splitOnChar]
  | cons x xs =>
    simp only [splitOnChar]
    by_cases hx : x = c
    · simp [hx]
    · simp only [if_neg hx]
      cases splitOnChar c xs <;> simp

theorem splitOnChar_not_mem (c : Char) (l : List Char) (h : c ∉ l) :
    splitOnChar c l = [l] := by
  induction l with
  | nil => rfl
  | cons x xs ih =>
    have hx : ¬ x = c := fun he => h (he ▸ List.mem_cons_self x xs)
    have hxs : c ∉ xs := fun hm => h (List.mem_cons_of_mem _ hm)
    simp only [splitOnChar, if_neg hx, ih hxs]

theorem intercalateChar_splitOnChar (c : Char) (l : List Char) :
    intercalateChar c (splitOnChar c l) = l := by
  induction l with
  | nil => rfl
  | cons x xs ih =>
    cases h : splitOnChar c xs with
    | nil => exact absurd h (splitOnChar_ne_nil c xs)
    | cons y ys =>
      rw [h] at ih
      by_cases hx : x = c
      · simp only [splitOnChar, if_pos hx, h, intercalateChar]
        simp [hx, ih]
      · simp only [splitOnChar, if_neg hx, h]
        cases ys with
        | nil =>
          simp only [intercalateChar] at ih ⊢
          simp [ih]
        | cons z zs =>
          simp only [intercalateChar] at ih ⊢
          simp [ih]

theorem splitOnChar_append (c : Char) (seg rest : List Char) (hseg : c ∉ seg) :
    splitOnChar c (seg ++ c :: rest) = seg :: splitOnChar c rest := by
  induction seg with
  | nil => simp [splitOnChar]
  | cons x xs ih =>
    have hx : ¬ x = c := fun he => hseg (he ▸ List.mem_cons_self x xs)
    have hxs : c ∉ xs := fun hm => hseg (List.mem_cons_of_mem _ hm)
    simp only [List.cons_append, splitOnChar, if_neg hx]
    have ih2 : splitOnChar c (xs.append (c :: rest)) = xs :: splitOnChar c rest := ih hxs
    rw [ih2]

theorem basenameChars_no_slash (p : Str) (h : '/' ∉ p) : basenameChars p = p := by
  simp [basenameChars, splitOnChar_not_mem _ _ h]

/-- C7, counterexample. The transport (multer's disk storage, src/index.ts
lines 63-67) names a stored file `<fieldname>-<timestamp>-<random>-<originalname>`,
a three-segment uniqueness prefix before the true filename. For the
convention basename `attachments-17-42-a.pdf` (prefix segments
`attachments`, `17`, `42`; true filename `a.pdf`), the resolver of
src/index.ts lines 166-170 yields `17-42-a.pdf`, not the true filename
`a.pdf`: the claim that the entire uniqueness prefix is stripped is false. -/
theorem c7_counterexample :
    fileNameOf "attachments-17-42-a.pdf".data = "17-42-a.pdf".data ∧
    "17-42-a.pdf".data ≠ "a.pdf".data := by
  decide

/-- C7, amended. Filename resolution strips exactly one separator-delimited
segment: for every path with no directory part whose basename is a single
separator-free segment followed by `-` and the rest of the name, the
resolved display filename is that rest. A multi-segment uniqueness prefix is
therefore only partially stripped (only its first segment is removed). -/
theorem c7_strip_amended (p seg rest : Str) (hslash : '/' ∉ p)
    (hseg : '-' ∉ seg) (hp : p = seg ++ '-' :: rest) :
    fileNameOf p = rest := by
  subst hp
  rw [fileNameOf, basenameChars_no_slash _ hslash, splitOnChar_append _ _ _ hseg]
  simpa using intercalateChar_splitOnChar '-' rest

/-- C7, witness for the amended theorem at a concrete single-segment prefix. -/
theorem c7_strip_amended_witness : fileNameOf "u1-file.txt".data = "file.txt".data :=
  c7_strip_amended "u1-file.txt".data "u1".data "file.txt".data
    (by decide) (by decide) (by decide)

/-- C9. Content-type resolution is total: when the lower-cased extension of
the path is a key of the static table, `getMimeType` returns that table
entry, and otherwise it returns `application/octet-stream`; being a total
function, it never fails. -/
theorem c9_mime_total (p m : Str) :
    (List.lookup ((extnameChars p).map Char.toLower) mimeTypesTable = some m →
      getMimeType p = m) ∧
    (List.lookup ((extnameChars p).map Char.toLower) mimeTypesTable = none →
      getMimeType p = "application/octet-stream".data) := by
  constructor <;> intro h <;> simp [getMimeType, h]

/-- C9, witness: a known extension (case-insensitively) hits the table, an
unknown one falls back to the generic binary type. -/
theorem c9_mime_total_witness :
    getMimeType "report.PDF".data = "application/pdf".data ∧
    getMimeType "archive.xyz".data = "application/octet-stream".data :=
  ⟨(c9_mime_total "report.PDF".data "application/pdf".data).1 (by decide),
   (c9_mime_total "archive.xyz".data "application/pdf".data).2 (by decide)⟩

/-- C10. `updateEmailStatus id st` preserves the number of stored emails and,
rowwise, changes at most the `status` field: the row at any position keeps
its id, sender, recipients, subject, body and sentAt; a row whose id matches
gets status `st`, and a row whose id differs is completely unchanged. -/
theorem c10_update_frame (db : DbState) (id : Nat) (st : Status) (i : Nat)
    (e e2 : Email) (h1 : db.emails[i]? = some e)
    (h2 : (updateEmailStatus id st db).emails[i]? = some e2) :
    (updateEmailStatus id st db).emails.length = db.emails.length ∧
    e2.id = e.id ∧ e2.sender = e.sender ∧ e2.recipients = e.recipients ∧
    e2.subject = e.subject ∧ e2.body = e.body ∧ e2.sentAt = e.sentAt ∧
    (e.id = id → e2.status = st) ∧ (e.id ≠ id → e2 = e) := by
  have hlen : (updateEmailStatus id st db).emails.length = db.emails.length := by
    simp [updateEmailStatus]
  simp only [updateEmailStatus, List.getElem?_map, h1, Option.map_some'] at h2
  by_cases hid : e.id = id
  · rw [if_pos hid] at h2
    have he2 := (Option.some.injEq _ _).mp h2
    subst he2
    exact ⟨hlen, rfl, rfl, rfl, rfl, rfl, rfl, fun _ => rfl, fun hne => absurd hid hne⟩
  · rw [if_neg hid] at h2
    have he2 := (Option.some.injEq _ _).mp h2
    subst he2
    exact ⟨hlen, rfl, rfl, rfl, rfl, rfl, rfl, fun hx => absurd hx hid, fun _ => rfl⟩

/-- C10, witness: updating the only stored record to `sent` keeps every other
field of the row. -/
theorem c10_update_frame_witness :
    emailRow1Sent.sender = emailRow1.sender ∧ emailRow1Sent.status = Status.sent :=
  ⟨(c10_update_frame dbOneEmail 1 Status.sent 0 emailRow1 emailRow1Sent
      (by decide) (by decide)).2.2.1,
   (c10_update_frame dbOneEmail 1 Status.sent 0 emailRow1 emailRow1Sent
      (by decide) (by decide)).2.2.2.2.2.2.2.1 (by decide)⟩

theorem processFile_emails (emailId : Nat) (env : SendEnv) (p : Str)
    (acc : DbState × List MsgAttachment) :
    (processFile emailId env p acc).1.emails = acc.1.emails := by
  simp only [processFile]
  cases env.fs p with
  | none => rfl
  | some content =>
    by_cases hok : env.saveAttachmentOk p = true <;> simp [hok, saveAttachment]

theorem processFiles_emails (emailId : Nat) (env : SendEnv) :
    ∀ (l : List Str) (acc : DbState × List MsgAttachment),
      (processFiles emailId env l acc).1.emails = acc.1.emails := by
  intro l
  induction l with
  | nil => intro acc; rfl
  | cons p rest ih =>
    intro acc
    rw [processFiles, ih, processFile_emails]

theorem processFile_attach_mem (emailId : Nat) (env : SendEnv) (p : Str)
    (acc : DbState × List MsgAttachment) (r : AttachmentRow)
    (h : r ∈ acc.1.attachments) :
    r ∈ (processFile emailId env p acc).1.attachments := by
  simp only [processFile]
  cases env.fs p with
  | none => exact h
  | some content =>
    by_cases hok : env.saveAttachmentOk p = true <;>
      simp [hok, saveAttachment, List.mem_append, h]

theorem processFiles_attach_mem (emailId : Nat) (env : SendEnv) :
    ∀ (l : List Str) (acc : DbState × List MsgAttachment) (r : AttachmentRow),
      r ∈ acc.1.attachments →
      r ∈ (processFiles emailId env l acc).1.attachments := by
  intro l
  induction l with
  | nil => intro acc r h; exact h
  | cons p rest ih =>
    intro acc r h
    rw [processFiles]
    exact ih _ r (processFile_attach_mem emailId env p acc r h)

theorem processFiles_creates (emailId : Nat) (env : SendEnv) :
    ∀ (l : List Str) (acc : DbState × List MsgAttachment) (p : Str),
      p ∈ l → (env.fs p).isSome = true → env.saveAttachmentOk p = true →
      ∃ r ∈ (processFiles emailId env l acc).1.attachments,
        r.emailId = emailId ∧ r.filename = fileNameOf p ∧
        r.contentType = getMimeType p := by
  intro l
  induction l with
  | nil => intro acc p hp; simp at hp
  | cons q rest ih =>
    intro acc p hp hread hok
    rw [processFiles]
    rcases List.mem_cons.mp hp with rfl | hp2
    · rcases Option.isSome_iff_exists.mp hread with ⟨content, hc⟩
      have hrow : (⟨acc.1.nextAttachmentId, emailId, fileNameOf p, [],
          getMimeType p⟩ : AttachmentRow) ∈ (processFile emailId env p acc).1.attachments := by
        simp [processFile, hc, hok, saveAttachment]
      exact ⟨_, processFiles_attach_mem emailId env rest _ _ hrow, rfl, rfl, rfl⟩
    · exact ih _ p hp2 hread hok

theorem processFiles_msg_len (emailId : Nat) (env : SendEnv) :
    ∀ (l : List Str) (acc : DbState × List MsgAttachment),
      (processFiles emailId env l acc).2.length =
        acc.2.length +
          (l.filter fun p => (env.fs p).isSome && env.saveAttachmentOk p).length := by
  intro l
  induction l with
  | nil => intro acc; simp [processFiles]
  | cons p rest ih =>
    intro acc
    rw [processFiles, ih]
    cases hc : env.fs p with
    | none => simp [processFile, hc, List.filter_cons]
    | some content =>
      by_cases hok : env.saveAttachmentOk p = true
      · simp [processFile, hc, hok, List.filter_cons]
        omega
      · simp [processFile, hc, hok, List.filter_cons]

theorem filter_length_single_fail {α : Type} (pred : α → Bool) :
    ∀ (l : List α) (p : α), l.Nodup → p ∈ l → pred p = false →
      (∀ q ∈ l, q ≠ p → pred q = true) →
      (l.filter pred).length + 1 = l.length := by
  intro l
  induction l with
  | nil => intro p _ hp; simp at hp
  | cons x rest ih =>
    intro p hnd hp hfp hrest
    rcases List.mem_cons.mp hp with rfl | hp2
    · have hall : ∀ q ∈ rest, pred q = true := by
        intro q hq
        refine hrest q (List.mem_cons_of_mem _ hq) ?_
        intro he
        exact (List.nodup_cons.mp hnd).1 (he ▸ hq)
      rw [List.filter_cons, if_neg (by simp [hfp]), List.filter_eq_self.mpr hall]
      simp
    · have hx : pred x = true := by
        refine hrest x (List.mem_cons_self x rest) ?_
        intro he
        exact (List.nodup_cons.mp hnd).1 (he ▸ hp2)
      rw [List.filter_cons, if_pos (by simp [hx])]
      have := ih p (List.nodup_cons.mp hnd).2 hp2 hfp
        (fun q hq hqp => hrest q (List.mem_cons_of_mem _ hq) hqp)
      simp only [List.length_cons]
      omega

/-- C1, counterexample. A send attempt with one readable attachment whose
delivery call throws: the catch block (src/index.ts lines 216-237) unlinks
the files but never calls `deleteAttachmentsByEmailId`, so the
AttachmentRecord created for the EmailRecord is still stored when the 500
response is returned — the claimed unconditional attachment-record cleanup
does not happen on the failure path. -/
theorem c1_counterexample :
    (sendHandler reqOneFile envDeliveryFail emptyDb).result = SendResult.failure ∧
    (sendHandler reqOneFile envDeliveryFail emptyDb).db.attachments =
      [⟨1, 1, "f.txt".data, [], "text/plain".data⟩] := by
  decide

/-- C1, amended. For every send attempt that passes validation and whose
record creation succeeds: every tracked artifact file is deleted before the
operation returns, whether delivery succeeds or fails; when the delivery,
status-update and record-cleanup calls all succeed, every AttachmentRecord
of this EmailRecord is deleted; but when the delivery collaborator fails,
the AttachmentRecords created for the EmailRecord are not deleted and remain
stored. -/
theorem c1_cleanup_amended (req : SendRequest) (env : SendEnv) (db : DbState)
    (hv : validReq req = true) (hse : env.saveEmailOk = true) :
    (∀ p ∈ allFilePaths req, (sendHandler req env db).fs p = none) ∧
    (env.deliveryOk = true → env.updateSentOk = true → env.deleteAttachmentsOk = true →
      ∀ r ∈ (sendHandler req env db).db.attachments, r.emailId ≠ db.nextEmailId) ∧
    (env.deliveryOk = false → ∀ p ∈ allFilePaths req,
      (env.fs p).isSome = true → env.saveAttachmentOk p = true →
      ∃ r ∈ (sendHandler req env db).db.attachments,
        r.emailId = db.nextEmailId ∧ r.filename = fileNameOf p ∧
        r.contentType = getMimeType p) := by
  refine ⟨?_, ?_, ?_⟩
  · intro p hp
    by_cases hdv : env.deliveryOk = true
    · by_cases hus : env.updateSentOk = true
      · by_cases hda : env.deleteAttachmentsOk = true
        · simp [sendHandler, hv, hse, hdv, hus, hda, sendCatch, unlinkAll, hp]
        · simp [sendHandler, hv, hse, hdv, hus, hda, sendCatch, unlinkAll, hp]
          split <;> simp [unlinkAll, hp]
      · simp [sendHandler, hv, hse, hdv, hus, sendCatch, unlinkAll, hp]
        split <;> simp [unlinkAll, hp]
    · simp [sendHandler, hv, hse, hdv, sendCatch, unlinkAll, hp]
      split <;> simp [unlinkAll, hp]
  · intro hdv hus hda r hr
    simp [sendHandler, hv, hse, hdv, hus, hda, deleteAttachmentsByEmailId,
      saveEmail, List.mem_filter] at hr
    exact hr.2
  · intro hdv p hp hread hok
    have h := processFiles_creates db.nextEmailId env (allFilePaths req)
      ((saveEmail (req.sender.getD []) (match req.recipients with
          | some (Sum.inr l) => l
          | some (Sum.inl s) => [s]
          | none => []) (req.subject.getD []) (req.body.getD [])
          Status.pending env.now db).2, []) p hp hread hok
    simp only [sendHandler, hv, hse, hdv]
    simp only [Bool.true_eq_false, if_false, eq_self_iff_true, if_true, sendCatch]
    split
    · simpa [updateEmailStatus, saveEmail] using h
    · simpa [saveEmail] using h

/-- C1, witness for the amended theorem: on a failing delivery the tracked
attachment file is removed from the uploads directory. -/
theorem c1_cleanup_amended_witness :
    (sendHandler reqOneFile envDeliveryFail emptyDb).fs "u-f.txt".data = none :=
  (c1_cleanup_amended reqOneFile envDeliveryFail emptyDb (by decide) (by decide)).1
    "u-f.txt".data (by decide)

/-- C2, counterexample. Delivery and the `sent` update succeed, then the
`deleteAttachmentsByEmailId` statement throws inside the try block: the
catch block marks the same record `failed`, so this single send attempt
performs two terminal status transitions — `pending → sent → failed` — and
the second one moves the record out of a terminal state. -/
theorem c2_counterexample :
    (sendHandler reqNoFile envDeleteFail emptyDb).statusWrites =
      [(1, Status.sent), (1, Status.failed)] ∧
    (sendHandler reqNoFile envDeleteFail emptyDb).statusWrites.length ≠ 1 := by
  decide

/-- C2, amended. Provided the attachment-record cleanup statement does not
throw, every send attempt performs at most one status transition, every
transition it performs is to a terminal status, and an attempt that creates
its EmailRecord performs exactly one; hence no terminal record is ever
touched again. When `deleteAttachmentsByEmailId` throws after the record was
marked `sent`, the catch block performs a second transition overwriting
`sent` with `failed`. -/
theorem c2_single_transition_amended (req : SendRequest) (env : SendEnv) (db : DbState)
    (hdel : env.deleteAttachmentsOk = true) (hwf : 1 ≤ db.nextEmailId) :
    (∀ w ∈ (sendHandler req env db).statusWrites, w.2 ≠ Status.pending) ∧
    (sendHandler req env db).statusWrites.length ≤ 1 ∧
    (validReq req = true → env.saveEmailOk = true →
      (sendHandler req env db).statusWrites.length = 1) := by
  have hid : db.nextEmailId ≠ 0 := by omega
  by_cases hv : validReq req = true
  · by_cases hse : env.saveEmailOk = true
    · by_cases hdv : env.deliveryOk = true
      · by_cases hus : env.updateSentOk = true
        · simp [sendHandler, hv, hse, hdv, hus, hdel, saveEmail]
        · simp [sendHandler, sendCatch, hv, hse, hdv, hus, saveEmail, hid]
      · simp [sendHandler, sendCatch, hv, hse, hdv, saveEmail, hid]
    · simp [sendHandler, sendCatch, hv, hse]
  · simp [sendHandler, hv]

/-- C2, witness for the amended theorem: with a successful cleanup the
attempt performs exactly one status transition. -/
theorem c2_single_transition_amended_witness :
    (sendHandler reqNoFile envAllOk emptyDb).statusWrites.length = 1 :=
  (c2_single_transition_amended reqNoFile envAllOk emptyDb (by decide)
    (by decide)).2.2 (by decide) (by decide)

/-- C3, counterexample. A send request whose `recipients` field is an array
with zero elements: a JavaScript array is truthy even when empty, so the
validation `!recipients` does not fire; the request is not rejected with a
validation error and an EmailRecord is created (the stored record count
grows by one), contradicting the claim for the empty-recipients-list case. -/
theorem c3_counterexample :
    (sendHandler reqEmptyRecipients envAllOk emptyDb).result ≠
      SendResult.validationError ∧
    (sendHandler reqEmptyRecipients envAllOk emptyDb).db.emails.length = 1 := by
  decide

/-- C3, amended. A send request whose sender, subject or body is missing or
empty, or whose recipients field is missing or the empty string, fails with
a validation error and leaves the database unchanged (no EmailRecord is
created). A recipients array with zero elements, however, passes validation:
whenever validation passes and record creation succeeds, an EmailRecord is
created (the stored record count grows by one). -/
theorem c3_validation_amended (req : SendRequest) (env : SendEnv) (db : DbState) :
    (validReq req = false →
      (sendHandler req env db).result = SendResult.validationError ∧
      (sendHandler req env db).db = db) ∧
    (validReq req = true → env.saveEmailOk = true →
      (sendHandler req env db).db.emails.length = db.emails.length + 1) := by
  constructor
  · intro hv
    simp [sendHandler, hv]
  · intro hv hse
    by_cases hdv : env.deliveryOk = true
    · by_cases hus : env.updateSentOk = true
      · by_cases hda : env.deleteAttachmentsOk = true
        · simp [sendHandler, hv, hse, hdv, hus, hda, deleteAttachmentsByEmailId,
            updateEmailStatus, processFiles_emails, saveEmail]
        · simp [sendHandler, hv, hse, hdv, hus, hda, sendCatch]
          split <;> simp [updateEmailStatus, processFiles_emails, saveEmail]
      · simp [sendHandler, hv, hse, hdv, hus, sendCatch]
        split <;> simp [updateEmailStatus, processFiles_emails, saveEmail]
    · simp [sendHandler, hv, hse, hdv, sendCatch]
      split <;> simp [updateEmailStatus, processFiles_emails, saveEmail]

/-- C3, witness for the amended theorem: an empty sender is rejected with a
validation error and no record is created. -/
theorem c3_validation_amended_witness :
    (sendHandler reqEmptySender envAllOk emptyDb).result =
      SendResult.validationError ∧
    (sendHandler reqEmptySender envAllOk emptyDb).db = emptyDb :=
  (c3_validation_amended reqEmptySender envAllOk emptyDb).1 (by decide)

/-- C6. When reading one artifact file fails while every other external call
succeeds, the failure is swallowed by the inner catch: the attempt still
succeeds, the delivery collaborator is still invoked, and the message it
receives carries one attachment fewer than the number of artifact paths —
the unreadable file is silently omitted and no error for it reaches the
caller. -/
theorem c6_read_failure_swallowed (req : SendRequest) (env : SendEnv) (db : DbState)
    (p : Str)
    (hv : validReq req = true) (hse : env.saveEmailOk = true)
    (hdv : env.deliveryOk = true) (hus : env.updateSentOk = true)
    (hda : env.deleteAttachmentsOk = true)
    (hnd : (allFilePaths req).Nodup) (hp : p ∈ allFilePaths req)
    (hfail : env.fs p = none)
    (hrest : ∀ q ∈ allFilePaths req, q ≠ p →
      (env.fs q).isSome = true ∧ env.saveAttachmentOk q = true) :
    (sendHandler req env db).result = SendResult.success db.nextEmailId ∧
    (sendHandler req env db).delivered.isSome = true ∧
    ((sendHandler req env db).delivered.map fun m => m.attachments.length + 1) =
      some (allFilePaths req).length := by
  have hflt : ((allFilePaths req).filter fun q =>
      (env.fs q).isSome && env.saveAttachmentOk q).length + 1 =
      (allFilePaths req).length := by
    refine filter_length_single_fail _ (allFilePaths req) p hnd hp (by simp [hfail]) ?_
    intro q hq hqp
    simp [(hrest q hq hqp).1, (hrest q hq hqp).2]
  refine ⟨?_, ?_, ?_⟩
  · simp [sendHandler, hv, hse, hdv, hus, hda, saveEmail]
  · simp [sendHandler, hv, hse, hdv, hus, hda]
  · simp only [sendHandler, hv, hse, hdv, hus, hda]
    simp only [Bool.true_eq_false, if_false, Option.map_some']
    rw [processFiles_msg_len]
    simp only [List.length_nil, Nat.zero_add]
    rw [hflt]

/-- C6, witness: two attachment paths, the second unreadable — the send
succeeds and the delivery collaborator is invoked. -/
theorem c6_read_failure_swallowed_witness :
    (sendHandler reqTwoFiles envOneUnreadable emptyDb).result =
      SendResult.success 1 ∧
    (sendHandler reqTwoFiles envOneUnreadable emptyDb).delivered.isSome = true :=
  ⟨(c6_read_failure_swallowed reqTwoFiles envOneUnreadable emptyDb "u-g.txt".data
      (by decide) (by decide) (by decide) (by decide) (by decide) (by decide)
      (by decide) (by decide) (by decide)).1,
   (c6_read_failure_swallowed reqTwoFiles envOneUnreadable emptyDb "u-g.txt".data
      (by decide) (by decide) (by decide) (by decide) (by decide) (by decide)
      (by decide) (by decide) (by decide)).2.1⟩

theorem find?_key_filter (p q : FPath) (hqp : ¬ q = p) :
    ∀ (l : List (FPath × Bytes)),
      ((l.filter fun e => e.1 ≠ p).find? fun e => e.1 = q) =
        (l.find? fun e => e.1 = q) := by
  intro l
  induction l with
  | nil => rfl
  | cons e rest ih =>
    by_cases hep : e.1 = p
    · have heq : ¬ e.1 = q := fun h => hqp (h ▸ hep)
      rw [List.filter_cons, if_neg (by simp [hep]),
        List.find?_cons_of_neg _ (by simp [heq]), ih]
    · rw [List.filter_cons, if_pos (by simp [hep])]
      by_cases heq : e.1 = q
      · rw [List.find?_cons_of_pos _ (by simp [heq]),
          List.find?_cons_of_pos _ (by simp [heq])]
      · rw [List.find?_cons_of_neg _ (by simp [heq]),
          List.find?_cons_of_neg _ (by simp [heq]), ih]

theorem fsWrite_read (fs : UploadFS) (p : FPath) (v : Option Bytes) (q : FPath) :
    fsWrite fs p v q = if q = p then v else fs q := by
  by_cases hq : q = p
  · subst hq
    rw [if_pos rfl]
    cases v with
    | none =>
      have hnone : ((fs.files.filter fun e => e.1 ≠ q).find? fun e => e.1 = q) =
          none := by
        rw [List.find?_eq_none]
        intro x hx
        have hmem := (List.mem_filter.mp hx).2
        simp only [ne_eq, decide_not, Bool.not_eq_eq_eq_not, Bool.not_true,
          decide_eq_false_iff_not] at hmem
        simp [hmem]
      simp [fsWrite, UploadFS.read, hnone]
    | some b =>
      simp [fsWrite, UploadFS.read]
  · rw [if_neg hq]
    cases v with
    | none =>
      show UploadFS.read ⟨fs.files.filter fun e => e.1 ≠ p⟩ q = UploadFS.read fs q
      simp only [UploadFS.read]
      rw [find?_key_filter p q hq]
    | some b =>
      show UploadFS.read ⟨(p, b) :: fs.files.filter fun e => e.1 ≠ p⟩ q =
        UploadFS.read fs q
      simp only [UploadFS.read]
      rw [List.find?_cons_of_neg _ (by simp; exact fun h => hq h.symm),
        find?_key_filter p q hq]

theorem any_inChunkDir_eq_false (fs : UploadFS) (fileId : String)
    (h : ∀ i, fs (FPath.chunk fileId i) = none) :
    (fs.files.any fun e => inChunkDir fileId e.1) = false := by
  rw [List.any_eq_false]
  intro e he
  cases hp : e.1 with
  | final n => simp [inChunkDir, hp]
  | chunk fid idx =>
    simp only [inChunkDir, hp, decide_eq_true_eq]
    intro hfid
    rw [hfid] at hp
    have hsome : ((fs.files.find? fun x => x.1 = FPath.chunk fileId idx).isSome) := by
      rw [List.find?_isSome]
      exact ⟨e, he, by simp [hp]⟩
    have hread := h idx
    simp only [UploadFS.read] at hread
    rw [Option.map_eq_none'] at hread
    rw [hread] at hsome
    exact Bool.noConfusion hsome

theorem completeUpload_valid (fileId fileName mimeType : String) (N : Nat)
    (fs : UploadFS)
    (hfi : ¬ fileId = "") (hfn : ¬ fileName = "") (hmt : ¬ mimeType = "")
    (hN0 : ¬ N = 0) :
    completeUpload fileId fileName N mimeType fs =
      match combineChunks fileId (FPath.final (fileId ++ "-" ++ fileName))
          (List.range N)
          (fsWrite fs (FPath.final (fileId ++ "-" ++ fileName)) (some [])) with
      | (true, fs2) =>
        if fs2.files.any fun e => inChunkDir fileId e.1 then
          (CompleteResult.serverError, fs2)
        else
          (CompleteResult.completeOk (FPath.final (fileId ++ "-" ++ fileName))
            fileName mimeType, fs2)
      | (false, fs2) => (CompleteResult.serverError, fs2) := by
  simp [completeUpload, hfi, hfn, hmt, hN0]

theorem combineChunks_ok (fileId name : String) (payload : Nat → Bytes) :
    ∀ (l : List Nat) (fs : UploadFS) (acc : Bytes),
      l.Nodup →
      (∀ i ∈ l, fs (FPath.chunk fileId i) = some (payload i)) →
      fs (FPath.final name) = some acc →
      (combineChunks fileId (FPath.final name) l fs).1 = true ∧
      (combineChunks fileId (FPath.final name) l fs).2 (FPath.final name) =
        some (acc ++ (l.map payload).flatten) ∧
      (∀ k, (combineChunks fileId (FPath.final name) l fs).2
          (FPath.chunk fileId k) =
        if k ∈ l then none else fs (FPath.chunk fileId k)) := by
  intro l
  induction l with
  | nil => intro fs acc _ _ hfin; simp [combineChunks, hfin]
  | cons i rest ih =>
    intro fs acc hnd hall hfin
    have hi := hall i (List.mem_cons_self i rest)
    simp only [combineChunks, hi]
    set fs2 := fsWrite (appendFinal fs (FPath.final name) (payload i))
      (FPath.chunk fileId i) none with hfs2
    have hfin2 : fs2 (FPath.final name) = some (acc ++ payload i) := by
      simp [hfs2, appendFinal, fsWrite_read, hfin]
    have hclear2 : ∀ k, fs2 (FPath.chunk fileId k) =
        if k = i then none else fs (FPath.chunk fileId k) := by
      intro k
      by_cases hk : k = i
      · simp [hk, hfs2, fsWrite_read]
      · simp only [hfs2, appendFinal, fsWrite_read]
        rw [if_neg (by simp [hk]), if_neg (by simp), if_neg hk]
    have hall2 : ∀ j ∈ rest, fs2 (FPath.chunk fileId j) = some (payload j) := by
      intro j hj
      have hji : ¬ j = i := fun he => (List.nodup_cons.mp hnd).1 (he ▸ hj)
      rw [hclear2 j, if_neg hji]
      exact hall j (List.mem_cons_of_mem _ hj)
    have h := ih fs2 (acc ++ payload i) (List.nodup_cons.mp hnd).2 hall2 hfin2
    refine ⟨h.1, ?_, ?_⟩
    · simpa [List.append_assoc] using h.2.1
    · intro k
      rw [h.2.2 k, hclear2 k]
      by_cases hki : k = i <;> by_cases hkr : k ∈ rest <;>
        simp [hki, hkr, List.mem_cons]

theorem applyChunkPuts_lookup_other (fileName fileId : String) (tc : Nat) :
    ∀ (ops : List (Nat × Bytes)) (fs : UploadFS) (i : Nat),
      (∀ b, (i, b) ∉ ops) →
      applyChunkPuts fileName fileId tc ops fs (FPath.chunk fileId i) =
        fs (FPath.chunk fileId i) := by
  intro ops
  induction ops with
  | nil => intro fs i _; rfl
  | cons op rest ih =>
    intro fs i hni
    rw [applyChunkPuts]
    rw [ih _ i (fun b hb => hni b (List.mem_cons_of_mem _ hb))]
    have hop : ¬ op.1 = i := by
      intro he
      exact hni op.2 (by rw [← he]; exact List.mem_cons_self op rest)
    have hop2 : ¬ i = op.1 := fun he => hop he.symm
    simp only [uploadChunk]
    split
    · rfl
    · simp [fsWrite_read, hop2]

theorem applyChunkPuts_lookup (fileName fileId : String) (tc : Nat)
    (payload : Nat → Bytes) (hfn : ¬ fileName = "") (hfi : ¬ fileId = "") :
    ∀ (ops : List (Nat × Bytes)) (fs : UploadFS) (i : Nat),
      (∀ b, (i, b) ∈ ops → b = payload i) → (i, payload i) ∈ ops →
      applyChunkPuts fileName fileId tc ops fs (FPath.chunk fileId i) =
        some (payload i) := by
  intro ops
  induction ops with
  | nil => intro fs i _ hmem; simp at hmem
  | cons op rest ih =>
    intro fs i hval hmem
    rw [applyChunkPuts]
    by_cases hr : (i, payload i) ∈ rest
    · exact ih _ i (fun b hb => hval b (List.mem_cons_of_mem _ hb)) hr
    · have hop : op = (i, payload i) := by
        rcases List.mem_cons.mp hmem with he | hcontra
        · exact he.symm
        · exact absurd hcontra hr
      have hnr : ∀ b, (i, b) ∉ rest := by
        intro b hb
        have := hval b (List.mem_cons_of_mem _ hb)
        exact hr (this ▸ hb)
      rw [applyChunkPuts_lookup_other fileName fileId tc rest _ i hnr]
      subst hop
      simp [uploadChunk, hfn, hfi, fsWrite_read]

theorem takeWhile_congr_mem {α : Type} (p q : α → Bool) :
    ∀ (l : List α), (∀ x ∈ l, p x = q x) → l.takeWhile p = l.takeWhile q := by
  intro l
  induction l with
  | nil => intro _; rfl
  | cons x xs ih =>
    intro h
    simp only [List.takeWhile]
    rw [h x (List.mem_cons_self x xs)]
    cases hq : q x with
    | false => rfl
    | true => rw [ih fun y hy => h y (List.mem_cons_of_mem _ hy)]

theorem combineChunks_missing (fileId name : String) :
    ∀ (l : List Nat) (fs : UploadFS) (acc : Bytes) (j : Nat),
      l.Nodup → j ∈ l → fs (FPath.chunk fileId j) = none →
      fs (FPath.final name) = some acc →
      (combineChunks fileId (FPath.final name) l fs).1 = false ∧
      (combineChunks fileId (FPath.final name) l fs).2 (FPath.final name) =
        some (acc ++
          ((l.takeWhile fun i => (fs (FPath.chunk fileId i)).isSome).map
            fun i => (fs (FPath.chunk fileId i)).getD []).flatten) := by
  intro l
  induction l with
  | nil => intro fs acc j _ hj; simp at hj
  | cons i rest ih =>
    intro fs acc j hnd hj hmiss hfin
    cases hc : fs (FPath.chunk fileId i) with
    | none =>
      simp only [combineChunks, hc]
      refine ⟨trivial, ?_⟩
      simp [List.takeWhile, hc, hfin]
    | some data =>
      have hji : ¬ j = i := by
        intro he
        rw [he, hc] at hmiss
        exact Option.noConfusion hmiss
      have hjr : j ∈ rest := by
        rcases List.mem_cons.mp hj with he | h
        · exact absurd he hji
        · exact h
      simp only [combineChunks, hc]
      set fs2 := fsWrite (appendFinal fs (FPath.final name) data)
        (FPath.chunk fileId i) none with hfs2
      have hfin2 : fs2 (FPath.final name) = some (acc ++ data) := by
        simp [hfs2, appendFinal, fsWrite_read, hfin]
      have hrw : ∀ k, ¬ k = i →
          fs2 (FPath.chunk fileId k) = fs (FPath.chunk fileId k) := by
        intro k hki
        simp only [hfs2, appendFinal, fsWrite_read]
        rw [if_neg (by simp [hki]), if_neg (by simp)]
      have hmiss2 : fs2 (FPath.chunk fileId j) = none := by
        rw [hrw j hji]
        exact hmiss
      have h2 := ih fs2 (acc ++ data) j (List.nodup_cons.mp hnd).2 hjr hmiss2 hfin2
      refine ⟨h2.1, ?_⟩
      rw [h2.2]
      have hmemrw : ∀ k ∈ rest,
          fs2 (FPath.chunk fileId k) = fs (FPath.chunk fileId k) := by
        intro k hk
        exact hrw k (fun he => (List.nodup_cons.mp hnd).1 (he ▸ hk))
      have htw : (rest.takeWhile fun k => (fs2 (FPath.chunk fileId k)).isSome) =
          (rest.takeWhile fun k => (fs (FPath.chunk fileId k)).isSome) :=
        takeWhile_congr_mem _ _ rest fun k hk => by rw [hmemrw k hk]
      rw [htw]
      have hmap : ((rest.takeWhile fun k => (fs (FPath.chunk fileId k)).isSome).map
            fun k => (fs2 (FPath.chunk fileId k)).getD []) =
          ((rest.takeWhile fun k => (fs (FPath.chunk fileId k)).isSome).map
            fun k => (fs (FPath.chunk fileId k)).getD []) := by
        refine List.map_congr_left ?_
        intro k hk
        rw [hmemrw k (List.Sublist.mem hk (List.takeWhile_sublist _))]
      rw [hmap]
      simp [List.takeWhile, hc, List.append_assoc]

/-- C4, counterexample. A two-chunk upload with chunk 1 never received:
assembly fails with the 500 error, but because `createWriteStream` creates
the final file before the loop and the loop streams chunk 0 into it before
throwing on the missing chunk, a file containing chunk 0's bytes exists at
the final artifact path after the operation returns — contradicting the
claim that no artifact file exists there. -/
theorem c4_counterexample :
    (completeUpload "u1" "x.txt" 2 "text/plain" fsChunk0Only).1 =
      CompleteResult.serverError ∧
    (completeUpload "u1" "x.txt" 2 "text/plain" fsChunk0Only).2
        (FPath.final "u1-x.txt") = some [1, 2] := by
  decide

/-- C4, amended. For every upload that passes the boundary validation and is
missing at least one chunk index below `totalChunks`, assembly fails with
the incomplete-upload error, but a partial artifact is left at the final
artifact path: the file holds exactly the concatenation of the chunks that
precede the first missing index (empty when index 0 is missing). -/
theorem c4_incomplete_amended (fileId fileName mimeType : String) (N j : Nat)
    (fs : UploadFS)
    (hfi : ¬ fileId = "") (hfn : ¬ fileName = "") (hmt : ¬ mimeType = "")
    (hj : j < N) (hmiss : fs (FPath.chunk fileId j) = none) :
    (completeUpload fileId fileName N mimeType fs).1 =
      CompleteResult.serverError ∧
    (completeUpload fileId fileName N mimeType fs).2
        (FPath.final (fileId ++ "-" ++ fileName)) =
      some ((((List.range N).takeWhile fun i =>
          (fs (FPath.chunk fileId i)).isSome).map fun i =>
          (fs (FPath.chunk fileId i)).getD []).flatten) := by
  have hN0 : ¬ N = 0 := by omega
  have hkeep : ∀ k, fsWrite fs (FPath.final (fileId ++ "-" ++ fileName)) (some [])
      (FPath.chunk fileId k) = fs (FPath.chunk fileId k) := by
    intro k
    simp [fsWrite_read]
  have hcm := combineChunks_missing fileId (fileId ++ "-" ++ fileName)
    (List.range N) (fsWrite fs (FPath.final (fileId ++ "-" ++ fileName)) (some []))
    [] j (List.nodup_range N) (List.mem_range.mpr hj) (by rw [hkeep]; exact hmiss)
    (by simp [fsWrite_read])
  rw [completeUpload_valid fileId fileName mimeType N _ hfi hfn hmt hN0]
  rcases hc : combineChunks fileId (FPath.final (fileId ++ "-" ++ fileName))
      (List.range N) (fsWrite fs (FPath.final (fileId ++ "-" ++ fileName))
        (some [])) with ⟨b, fs2⟩
  rw [hc] at hcm
  have hb : b = false := hcm.1
  subst hb
  refine ⟨rfl, ?_⟩
  have h2 := hcm.2
  have htw : ((List.range N).takeWhile fun k =>
      (fsWrite fs (FPath.final (fileId ++ "-" ++ fileName)) (some [])
        (FPath.chunk fileId k)).isSome) =
      ((List.range N).takeWhile fun k => (fs (FPath.chunk fileId k)).isSome) :=
    takeWhile_congr_mem _ _ _ fun k _ => by rw [hkeep]
  rw [htw] at h2
  have hmap : (((List.range N).takeWhile fun k =>
        (fs (FPath.chunk fileId k)).isSome).map fun k =>
        (fsWrite fs (FPath.final (fileId ++ "-" ++ fileName)) (some [])
          (FPath.chunk fileId k)).getD []) =
      (((List.range N).takeWhile fun k =>
        (fs (FPath.chunk fileId k)).isSome).map fun k =>
        (fs (FPath.chunk fileId k)).getD []) := by
    refine List.map_congr_left ?_
    intro k _
    rw [hkeep]
  rw [hmap] at h2
  simpa using h2

/-- C4, witness for the amended theorem at the concrete incomplete upload. -/
theorem c4_incomplete_amended_witness :
    (completeUpload "u1" "x.txt" 2 "text/plain" fsChunk0Only).1 =
      CompleteResult.serverError :=
  (c4_incomplete_amended "u1" "x.txt" "text/plain" 2 1 fsChunk0Only
    (by decide) (by decide) (by decide) (by decide) (by decide)).1

/-- C5. For every upload that passes the boundary validation, starts from a
staging area holding no chunk for this uploadId (a fresh session, as in the
claim's scenario of storing exactly chunks `0..N-1`), and receives the
`totalChunks` chunk requests in any arrival order (any permutation of the
writes for indices `0..N-1`), completing the upload succeeds and produces an
artifact at the final path that is byte-identical to the concatenation of
the chunk payloads in ascending index order. -/
theorem c5_assembly_order (fileId fileName mimeType : String) (N : Nat)
    (payload : Nat → Bytes) (ops : List (Nat × Bytes)) (fs0 : UploadFS)
    (hfi : ¬ fileId = "") (hfn : ¬ fileName = "") (hmt : ¬ mimeType = "")
    (hN : 1 ≤ N)
    (hperm : ops.Perm ((List.range N).map fun j => (j, payload j)))
    (hfresh : ∀ i, fs0 (FPath.chunk fileId i) = none) :
    (completeUpload fileId fileName N mimeType
        (applyChunkPuts fileName fileId N ops fs0)).1 =
      CompleteResult.completeOk (FPath.final (fileId ++ "-" ++ fileName))
        fileName mimeType ∧
    (completeUpload fileId fileName N mimeType
        (applyChunkPuts fileName fileId N ops fs0)).2
        (FPath.final (fileId ++ "-" ++ fileName)) =
      some ((List.range N).map payload).flatten := by
  have hN0 : ¬ N = 0 := by omega
  have hall : ∀ i ∈ List.range N,
      fsWrite (applyChunkPuts fileName fileId N ops fs0)
        (FPath.final (fileId ++ "-" ++ fileName)) (some [])
        (FPath.chunk fileId i) = some (payload i) := by
    intro i hi
    have hkeep : fsWrite (applyChunkPuts fileName fileId N ops fs0)
        (FPath.final (fileId ++ "-" ++ fileName)) (some [])
        (FPath.chunk fileId i) =
        applyChunkPuts fileName fileId N ops fs0 (FPath.chunk fileId i) := by
      simp [fsWrite_read]
    rw [hkeep]
    refine applyChunkPuts_lookup fileName fileId N payload hfn hfi ops fs0 i ?_ ?_
    · intro b hb
      have hmem := hperm.mem_iff.mp hb
      simp only [List.mem_map, List.mem_range] at hmem
      rcases hmem with ⟨j, _, hj⟩
      have h1 : j = i := congrArg Prod.fst hj
      have h2 : payload j = b := congrArg Prod.snd hj
      rw [← h2, h1]
    · refine hperm.mem_iff.mpr ?_
      simp only [List.mem_map, List.mem_range]
      exact ⟨i, List.mem_range.mp hi, rfl⟩
  have hcomb := combineChunks_ok fileId (fileId ++ "-" ++ fileName) payload
    (List.range N) (fsWrite (applyChunkPuts fileName fileId N ops fs0)
      (FPath.final (fileId ++ "-" ++ fileName)) (some []))
    [] (List.nodup_range N) hall (by simp [fsWrite_read])
  rw [completeUpload_valid fileId fileName mimeType N _ hfi hfn hmt hN0]
  rcases hc : combineChunks fileId (FPath.final (fileId ++ "-" ++ fileName))
      (List.range N) (fsWrite (applyChunkPuts fileName fileId N ops fs0)
        (FPath.final (fileId ++ "-" ++ fileName)) (some [])) with ⟨b, fs2⟩
  rw [hc] at hcomb
  have hb : b = true := hcomb.1
  subst hb
  have hnone : ∀ k, fs2 (FPath.chunk fileId k) = none := by
    intro k
    rw [hcomb.2.2 k]
    by_cases hk : k ∈ List.range N
    · simp [hk]
    · rw [if_neg hk, fsWrite_read, if_neg (by simp)]
      have hno : ∀ bb, (k, bb) ∉ ops := by
        intro bb hbb
        have hmem := hperm.mem_iff.mp hbb
        simp only [List.mem_map, List.mem_range] at hmem
        rcases hmem with ⟨j, hj, hje⟩
        have hjk : j = k := congrArg Prod.fst hje
        exact hk (List.mem_range.mpr (hjk ▸ hj))
      rw [applyChunkPuts_lookup_other fileName fileId N ops fs0 k hno]
      exact hfresh k
  have hany := any_inChunkDir_eq_false fs2 fileId hnone
  simp only [hany, Bool.false_eq_true, if_false]
  exact ⟨trivial, by simpa using hcomb.2.1⟩

/-- C5, witness: a two-chunk upload into a fresh staging area whose chunks
arrive in reverse order still assembles to the concatenation in index
order. -/
theorem c5_assembly_order_witness :
    (completeUpload "u1" "x.txt" 2 "text/plain"
        (applyChunkPuts "x.txt" "u1" 2 [(1, [20]), (0, [10])] fsEmpty)).1 =
      CompleteResult.completeOk (FPath.final ("u1" ++ "-" ++ "x.txt"))
        "x.txt" "text/plain" ∧
    (completeUpload "u1" "x.txt" 2 "text/plain"
        (applyChunkPuts "x.txt" "u1" 2 [(1, [20]), (0, [10])] fsEmpty)).2
        (FPath.final ("u1" ++ "-" ++ "x.txt")) =
      some ((List.range 2).map payloadW).flatten :=
  c5_assembly_order "u1" "x.txt" "text/plain" 2 payloadW
    [(1, [20]), (0, [10])] fsEmpty
    (by decide) (by decide) (by decide) (by decide) (by decide) (fun _ => rfl)

/-- C8. Writing a chunk index a second time overwrites the first write: the
staging area after the two writes coincides pointwise with the one obtained
from the second write alone, the later payload is what is stored at that
index (hence what assembly reads), and re-writing identical bytes is
idempotent — there is never a duplicate entry for an index. -/
theorem c8_chunk_overwrite (fileName fileId : String) (i tc : Nat)
    (b1 b2 : Bytes) (fs : UploadFS) (q : FPath)
    (hfn : ¬ fileName = "") (hfi : ¬ fileId = "") :
    (uploadChunk (some i) (some tc) fileName fileId b2
        (uploadChunk (some i) (some tc) fileName fileId b1 fs).2).2 q =
      (uploadChunk (some i) (some tc) fileName fileId b2 fs).2 q ∧
    (uploadChunk (some i) (some tc) fileName fileId b2
        (uploadChunk (some i) (some tc) fileName fileId b1 fs).2).2
        (FPath.chunk fileId i) = some b2 ∧
    (uploadChunk (some i) (some tc) fileName fileId b1
        (uploadChunk (some i) (some tc) fileName fileId b1 fs).2).2 q =
      (uploadChunk (some i) (some tc) fileName fileId b1 fs).2 q := by
  have hred : ∀ (b : Bytes) (g : UploadFS),
      (uploadChunk (some i) (some tc) fileName fileId b g).2 =
        fsWrite g (FPath.chunk fileId i) (some b) := by
    intro b g
    simp [uploadChunk, hfn, hfi]
  simp only [hred]
  by_cases hq : q = FPath.chunk fileId i <;> simp [fsWrite_read, hq]

/-- C8, witness: after writing chunk 0 twice with different bytes, the later
payload is stored. -/
theorem c8_chunk_overwrite_witness :
    (uploadChunk (some 0) (some 1) "f" "u" [2]
        (uploadChunk (some 0) (some 1) "f" "u" [1] fsEmpty).2).2
        (FPath.chunk "u" 0) = some [2] :=
  (c8_chunk_overwrite "f" "u" 0 1 [1] [2] fsEmpty (FPath.chunk "u" 0)
    (by decide) (by decide)).2.1
